import Mathlib

/-!
# Verification of `src/main.py` (AsciiArtAnimator)

Shallow embedding of the image-to-ASCII renderer in `src/main.py` and proofs
of the specification's claims about it.

Modelling conventions:

* Pixel intensities and sizes are `Nat`.  After `image.convert('L')` Pillow
  yields one intensity per sample in `[0, 255]`; where a proof needs that
  range guarantee it is taken as an explicit hypothesis.
* `int(pixel_intensity / 256 * len(char_set))` (line 9 of the source) is
  binary floating-point in Python, but for `pixel_intensity ≤ 255` the value
  `pixel_intensity / 256 * len(char_set)` is the dyadic rational
  `pixel_intensity * len(char_set) / 256` computed exactly (numerator far
  below 2^53), so `int` of it is exactly the natural-number division
  `pixel_intensity * len(char_set) / 256`.  That is how `palette_index`
  is defined.
* `int(output_width * (height / width) * 0.55)` (lines 34–35) is IEEE-754
  binary64 arithmetic in Python.  It is modelled bit-exactly: a
  nonnegative double is represented as an exact fraction of naturals, and
  `roundDoubleFrac` performs correct rounding to nearest, ties to even,
  of an exact fraction — the semantics of each of the three float
  operations involved (`height / width` is one correctly rounded
  division of exactly converted integers, then two correctly rounded
  multiplications, the second by the double nearest to the literal
  `0.55`).  `int` truncation of the nonnegative result is division of
  the final fraction's numerator by its denominator.  The model assumes
  the normal, non-overflowing double range, which covers every
  realizable image size and width.
* The filesystem (`os.path.exists`) and Pillow (`Image.open`, `resize`,
  `convert('L')`, `getdata`) are modelled abstractly by a `FileSystem`
  structure: `pathExists` is the existence predicate, `openImage` either
  yields an opened image or the message of the exception raised by
  `Image.open` (which line 28 catches).  Pillow's `Image.open` only
  inspects the header; pixel decoding is lazy and happens at line 38,
  when `resize` forces `load()`.  An opened image therefore carries its
  source size and a fallible function `resizedGray` giving, for each
  requested grid `(w, h)`, either the flat grayscale sample list
  produced by `image.resize((w, h)).convert('L').getdata()` or the
  message of the exception (e.g. an `OSError` for data that is corrupt
  past the header) raised during that lazy load — an exception no
  handler in `image_to_ascii` catches.  Pillow's `resize` also raises
  `ValueError: height and width must be > 0` when either requested
  dimension is 0, which `image_to_ascii` reflects before consulting
  `resizedGray`.
* A Python exception escaping `image_to_ascii` uncaught
  (ZeroDivisionError from `height / width` when the source width is 0,
  ValueError from `resize` when the requested width or computed height
  is 0, any exception from the lazy pixel load, IndexError from
  `char_set[index]` when the index is out of range, ZeroDivisionError
  from `(i + 1) % output_width` when `output_width` is 0) is modelled by
  the distinguished result `RenderResult.exn`.
* The source reports failures as strings (`"Error: Image '...' not found."`,
  `"Error opening image: {e}"`).  The two shapes are distinguishable, and
  the embedding represents them by the constructors `RenderError.notFound`
  (carrying the path) and `RenderError.decodeError` (carrying the
  underlying cause `e`), matching the error taxonomy of the specification.
-/

set_option maxRecDepth 1000000

namespace AsciiArt

/-- The palette index computed on line 9 of `src/main.py`:
`index = int(pixel_intensity / 256 * len(char_set))`, exact for
intensities in `[0, 255]` (see the header comment). -/
def palette_index (pixel_intensity : Nat) (char_set : List Char) : Nat :=
  pixel_intensity * char_set.length / 256

/-- `get_ascii_char` from `src/main.py` (lines 4–10): compute the index and
look the character up.  `char_set[index]` raising `IndexError` (only
possible for an empty `char_set`, or an intensity outside `[0, 255]`)
is modelled by `none`. -/
def get_ascii_char (pixel_intensity : Nat) (char_set : List Char) : Option Char :=
  (char_set.get? (palette_index pixel_intensity char_set))

/-! ### Exact model of the IEEE-754 binary64 arithmetic of lines 34–35

Nonnegative double values are carried as exact fractions
`(numerator, denominator)` of naturals (not necessarily reduced);
`roundDoubleFrac a b` is the double nearest to `a / b` (ties to even),
valid on the normal, non-overflowing range. -/

/-- `⌊log2 n⌋` via fuelled structural recursion (the fuel `n` dominates
the number of halvings), so that proofs can evaluate it by kernel
reduction. -/
def natLog2Aux : Nat → Nat → Nat
  | 0, _ => 0
  | fuel + 1, n => if n < 2 then 0 else natLog2Aux fuel (n / 2) + 1

/-- `⌊log2 n⌋` for `n ≥ 1` (and 0 for `n ∈ {0, 1}`). -/
def natLog2 (n : Nat) : Nat := natLog2Aux n n

/-- Whether `a / b < 2 ^ k`, for an integer exponent `k`. -/
def ltPow2 (a b : Nat) (k : Int) : Bool :=
  if 0 ≤ k then a < 2 ^ k.toNat * b else a * 2 ^ (-k).toNat < b

/-- The binade of `a / b` (for `a, b ≥ 1`): the integer `e` with
`2 ^ e ≤ a / b < 2 ^ (e + 1)`. -/
def fracLog2 (a b : Nat) : Int :=
  let e0 : Int := (natLog2 a : Int) - (natLog2 b : Int)
  if ltPow2 a b e0 then e0 - 1 else e0

/-- Correctly round the exact nonnegative fraction `a / b` to the
nearest IEEE-754 binary64 value (ties to even), returned as an exact
dyadic fraction.  The 53-bit significand is obtained by scaling into
`[2^52, 2^53)` and rounding the scaled fraction to an integer. -/
def roundDoubleFrac (a b : Nat) : Nat × Nat :=
  if a = 0 then (0, 1)
  else
    let e : Int := fracLog2 a b
    let s : Int := 52 - e
    let A := if 0 ≤ s then a * 2 ^ s.toNat else a
    let B := if 0 ≤ s then b else b * 2 ^ (-s).toNat
    let n := A / B
    let r := A % B
    let m :=
      if 2 * r < B then n
      else if B < 2 * r then n + 1
      else if n % 2 = 0 then n else n + 1
    if 0 ≤ s then (m, 2 ^ s.toNat) else (m * 2 ^ (-s).toNat, 1)

/-- One IEEE binary64 multiplication of two exactly represented doubles:
the exact product, correctly rounded. -/
def fmulFrac (x y : Nat × Nat) : Nat × Nat :=
  roundDoubleFrac (x.1 * y.1) (x.2 * y.2)

/-- The double nearest the Python literal `0.55` (its value is
`4953959590107546 / 2^53`, slightly above `55 / 100`). -/
def float_055 : Nat × Nat := roundDoubleFrac 55 100

/-- A decoded Pillow image: source size plus the grayscale resampling
behaviour (`resize` + `convert('L')` + `getdata`, lines 38–41 of the
source), abstracted as a fallible function from the requested grid to
the flat sample list.  `.error e` models an exception raised during the
lazy pixel load that `resize` forces (e.g. `OSError` for data corrupt
past the header) — `image_to_ascii` has no handler there.  For positive
grids on which the load succeeds, Pillow guarantees the list has length
`w * h` with every entry in `[0, 255]`; theorems that need this take it
as a hypothesis. -/
structure PILImage where
  width : Nat
  height : Nat
  resizedGray : Nat → Nat → Except String (List Nat)

/-- The ambient filesystem and decoder: `os.path.exists` and `Image.open`.
`openImage path = .error e` models `Image.open(path)` raising an
exception rendered as the string `e` (caught on line 28 of the source).
`Image.open` reads only the header, so this covers unidentifiable or
unsupported formats; corrupt pixel data surfaces later, through
`PILImage.resizedGray`. -/
structure FileSystem where
  pathExists : String → Bool
  openImage : String → Except String PILImage

/-- The failure kinds `image_to_ascii` reports as return values:
`notFound path` is the string `"Error: Image '{path}' not found."`
(line 24), `decodeError e` is `"Error opening image: {e}"` (line 29). -/
inductive RenderError where
  | notFound : String → RenderError
  | decodeError : String → RenderError
deriving DecidableEq, Repr

/-- Outcome of a call to `image_to_ascii`: a returned string (`ok`),
a returned error message (`err`), or an uncaught Python exception
escaping the function (`exn`). -/
inductive RenderResult where
  | ok : String → RenderResult
  | err : RenderError → RenderResult
  | exn : RenderResult
deriving DecidableEq, Repr

/-- The double computed by lines 34–35 of the source before the `int`
truncation: `aspect_ratio = height / width` (one correctly rounded
division of exactly converted integers), then
`output_width * aspect_ratio` (exact int-to-double conversion of
`output_width`, one rounded multiplication), then `* 0.55` (one rounded
multiplication by the double nearest `0.55`), as an exact fraction. -/
def output_height_val (output_width width height : Nat) : Nat × Nat :=
  fmulFrac (fmulFrac (roundDoubleFrac output_width 1) (roundDoubleFrac height width))
    float_055

/-- Line 35 of the source:
`output_height = int(output_width * aspect_ratio * 0.55)`.  The value
is nonnegative, so `int` truncation is division of the exact fraction's
numerator by its denominator. -/
def output_height_of (output_width width height : Nat) : Nat :=
  (output_height_val output_width width height).1
    / (output_height_val output_width width height).2

/-- The accumulation loop of lines 42–46 of the source: for the `i`-th
sample append its character, and after every `output_width` characters
append a newline.  `none` models an exception: `IndexError` inside
`get_ascii_char`, or `ZeroDivisionError` from `(i + 1) % output_width`
when `output_width = 0` (the modulus is evaluated on every iteration,
so a nonempty sample list with zero width raises). -/
def ascii_loop (char_set : List Char) (output_width : Nat) :
    Nat → List Nat → Option (List Char)
  | _, [] => some []
  | i, p :: ps =>
    if output_width = 0 then
      none
    else
      match get_ascii_char p char_set with
      | none => none
      | some c =>
        match ascii_loop char_set output_width (i + 1) ps with
        | none => none
        | some rest =>
          some (if (i + 1) % output_width = 0 then c :: '\n' :: rest else c :: rest)

/-- The default `char_set` of `image_to_ascii` (line 12):
`' .:-=+*#%@'`, brightest to darkest. -/
def default_char_set : List Char :=
  [' ', '.', ':', '-', '=', '+', '*', '#', '%', '@']

/-- The default `output_width` of `image_to_ascii` (line 12). -/
def default_output_width : Nat := 100

/-- `image_to_ascii` from `src/main.py` (lines 12–47):
existence check, header decode, aspect-corrected height in double
arithmetic, resample to grayscale (where Pillow raises `ValueError`
when either requested dimension is 0, and where a lazy pixel-load
failure raises uncaught), character accumulation. -/
def image_to_ascii (fs : FileSystem) (image_path : String)
    (output_width : Nat) (char_set : List Char) : RenderResult :=
  if fs.pathExists image_path = false then
    .err (.notFound image_path)
  else
    match fs.openImage image_path with
    | .error e => .err (.decodeError e)
    | .ok image =>
      if image.width = 0 then
        .exn
      else
        if output_width = 0
            ∨ output_height_of output_width image.width image.height = 0 then
          .exn
        else
          match image.resizedGray output_width
              (output_height_of output_width image.width image.height) with
          | .error _ => .exn
          | .ok pixels =>
            match ascii_loop char_set output_width 0 pixels with
            | none => .exn
            | some chars => .ok (String.mk chars)

/-- `image_to_ascii` called without `output_width` and `char_set`, i.e.
with the defaults of line 12 of the source. -/
def image_to_ascii_default (fs : FileSystem) (image_path : String) : RenderResult :=
  image_to_ascii fs image_path default_output_width default_char_set

/-! ## Concrete fixtures used by witnesses and counterexamples -/

/-- A 2×2 image whose every resampled grayscale value is 128, with the
Pillow-guaranteed sample count `w * h` for every requested grid. -/
def mid_image : PILImage :=
  ⟨2, 2, fun w h => .ok (List.replicate (w * h) 128)⟩

/-- A filesystem on which every path exists and decodes to `mid_image`. -/
def mid_fs : FileSystem :=
  ⟨fun _ => true, fun _ => .ok mid_image⟩

/-- A 1×2 image (taller than wide) whose samples are all 0. -/
def tall_image : PILImage :=
  ⟨1, 2, fun w h => .ok (List.replicate (w * h) 0)⟩

/-- A filesystem on which every path exists and decodes to `tall_image`. -/
def tall_fs : FileSystem :=
  ⟨fun _ => true, fun _ => .ok tall_image⟩

/-- A 100×3 image whose samples are all 0. -/
def wide_image : PILImage :=
  ⟨100, 3, fun w h => .ok (List.replicate (w * h) 0)⟩

/-- A filesystem on which every path exists and decodes to `wide_image`. -/
def wide_fs : FileSystem :=
  ⟨fun _ => true, fun _ => .ok wide_image⟩

/-- A 200×1 panorama image (much wider than tall); its resampled
samples are all 0 on any grid Pillow would accept. -/
def pano_image : PILImage :=
  ⟨200, 1, fun w h => .ok (List.replicate (w * h) 0)⟩

/-- A filesystem on which every path exists and decodes to
`pano_image`. -/
def pano_fs : FileSystem :=
  ⟨fun _ => true, fun _ => .ok pano_image⟩

/-- A 2×2 image whose header is valid (so `Image.open` succeeds) but
whose pixel data is corrupt: the lazy load raises. -/
def lazy_corrupt_image : PILImage :=
  ⟨2, 2, fun _ _ => .error "image file is truncated"⟩

/-- A filesystem on which every path exists and opens to
`lazy_corrupt_image`. -/
def lazy_corrupt_fs : FileSystem :=
  ⟨fun _ => true, fun _ => .ok lazy_corrupt_image⟩

/-- A filesystem on which every path exists but nothing opens:
`Image.open` raises with a fixed message. -/
def corrupt_fs : FileSystem :=
  ⟨fun _ => true, fun _ => .error "cannot identify image file"⟩

/-- A filesystem on which no path exists. -/
def empty_fs : FileSystem :=
  ⟨fun _ => false, fun _ => .error "unreachable"⟩

/-! ## Helper lemmas -/

/-- For an intensity in `[0, 255]` and a nonempty palette the computed
index is strictly below the palette length. -/
lemma palette_index_lt (q : Nat) (cs : List Char) (hq : q ≤ 255) (hcs : cs ≠ []) :
    palette_index q cs < cs.length := by
  have hlen : 0 < cs.length := List.length_pos.mpr hcs
  have h1 : q * cs.length < 256 * cs.length :=
    Nat.mul_lt_mul_of_lt_of_le (Nat.lt_succ_of_le hq) (Nat.le_refl _) hlen
  exact (Nat.div_lt_iff_lt_mul (by norm_num)).mpr (by linarith [h1])

/-- `get_ascii_char` succeeds exactly on palettes long enough for the
computed index, and any returned character is a palette member. -/
lemma get_ascii_char_mem {q : Nat} {cs : List Char} {c : Char}
    (h : get_ascii_char q cs = some c) : c ∈ cs :=
  List.get?_mem h

/-- `get_ascii_char` succeeds for any intensity in `[0, 255]` on a
nonempty palette. -/
lemma get_ascii_char_isSome (q : Nat) (cs : List Char) (hq : q ≤ 255) (hcs : cs ≠ []) :
    ∃ c, get_ascii_char q cs = some c := by
  have h := palette_index_lt q cs hq hcs
  exact ⟨cs.get ⟨palette_index q cs, h⟩, List.get?_eq_get h⟩

/-- The characters of one row of samples: `get_ascii_char` mapped across
the row, `none` propagating a lookup failure.  Proof device for
decomposing `ascii_loop` row by row. -/
def row_chars (char_set : List Char) : List Nat → Option (List Char)
  | [] => some []
  | p :: ps =>
    match get_ascii_char p char_set, row_chars char_set ps with
    | some c, some rest => some (c :: rest)
    | _, _ => none

/-- Every character produced by `row_chars` belongs to the palette. -/
lemma row_chars_mem {cs : List Char} :
    ∀ {ps : List Nat} {r : List Char}, row_chars cs ps = some r →
      ∀ c ∈ r, c ∈ cs := by
  intro ps
  induction ps with
  | nil =>
    intro r h c hc
    simp only [row_chars] at h
    cases h
    simp at hc
  | cons p ps ih =>
    intro r h c hc
    simp only [row_chars] at h
    cases hg : get_ascii_char p cs with
    | none => rw [hg] at h; cases h
    | some c0 =>
      rw [hg] at h
      cases hr : row_chars cs ps with
      | none => rw [hr] at h; cases h
      | some rest =>
        rw [hr] at h
        cases h
        rcases List.mem_cons.mp hc with rfl | hc
        · exact get_ascii_char_mem hg
        · exact ih hr c hc

/-- `row_chars` preserves length. -/
lemma row_chars_length {cs : List Char} :
    ∀ {ps : List Nat} {r : List Char}, row_chars cs ps = some r →
      r.length = ps.length := by
  intro ps
  induction ps with
  | nil =>
    intro r h
    simp only [row_chars] at h
    cases h
    rfl
  | cons p ps ih =>
    intro r h
    simp only [row_chars] at h
    cases hg : get_ascii_char p cs with
    | none => rw [hg] at h; cases h
    | some c0 =>
      rw [hg] at h
      cases hr : row_chars cs ps with
      | none => rw [hr] at h; cases h
      | some rest =>
        rw [hr] at h
        cases h
        simp [ih hr]

/-- One-step unfolding of `ascii_loop` on a cons cell, for a nonzero
width. -/
lemma ascii_loop_cons (cs : List Char) (w i p : Nat) (ps : List Nat) (hw : w ≠ 0) :
    ascii_loop cs w i (p :: ps) =
      match get_ascii_char p cs with
      | none => none
      | some c =>
        match ascii_loop cs w (i + 1) ps with
        | none => none
        | some rest =>
          some (if (i + 1) % w = 0 then c :: '\n' :: rest else c :: rest) := by
  rw [ascii_loop, if_neg hw]

/-- One-step unfolding of `row_chars` on a cons cell. -/
lemma row_chars_cons (cs : List Char) (p : Nat) (ps : List Nat) :
    row_chars cs (p :: ps) =
      match get_ascii_char p cs, row_chars cs ps with
      | some c, some rest => some (c :: rest)
      | _, _ => none := rfl

/-- Traversing one nonempty row whose last sample lands exactly on a row
boundary: the loop emits the row's characters, a newline, and then
continues past the row.  `hmid` says no earlier position of the row is a
boundary. -/
lemma ascii_loop_row (cs : List Char) (w : Nat) (hw : 0 < w) :
    ∀ (row rest : List Nat) (i : Nat), row ≠ [] →
      (i + row.length) % w = 0 →
      (∀ t, 0 < t → t < row.length → (i + t) % w ≠ 0) →
      ascii_loop cs w i (row ++ rest) =
        match row_chars cs row, ascii_loop cs w (i + row.length) rest with
        | some r, some out => some (r ++ '\n' :: out)
        | _, _ => none := by
  intro row
  induction row with
  | nil => intro rest i hne; exact absurd rfl hne
  | cons p row ih =>
    intro rest i _ hend hmid
    cases row with
    | nil =>
      have hb : (i + 1) % w = 0 := by simpa using hend
      rw [List.cons_append, List.nil_append, ascii_loop_cons cs w i p rest hw.ne']
      simp only [row_chars, List.length_cons, List.length_nil, Nat.zero_add]
      cases hg : get_ascii_char p cs with
      | none => rfl
      | some c =>
        cases hrest : ascii_loop cs w (i + 1) rest with
        | none => rfl
        | some out => simp [hb]
    | cons q row' =>
      have hne' : q :: row' ≠ [] := List.cons_ne_nil _ _
      have hend' : (i + 1 + (q :: row').length) % w = 0 := by
        have h : i + 1 + (q :: row').length = i + (p :: q :: row').length := by
          simp only [List.length_cons]; omega
        rw [h]; exact hend
      have hmid' : ∀ t, 0 < t → t < (q :: row').length → (i + 1 + t) % w ≠ 0 := by
        intro t ht htlt
        have h : i + 1 + t = i + (t + 1) := by omega
        rw [h]
        refine hmid (t + 1) (Nat.succ_pos t) ?_
        simp only [List.length_cons] at htlt ⊢
        omega
      have hstep := ih rest (i + 1) hne' hend' hmid'
      have hnotb : (i + 1) % w ≠ 0 := by
        refine hmid 1 Nat.one_pos ?_
        simp only [List.length_cons]
        omega
      have hidx : i + (p :: q :: row').length = i + 1 + (q :: row').length := by
        simp only [List.length_cons]; omega
      rw [List.cons_append, ascii_loop_cons cs w i p ((q :: row') ++ rest) hw.ne',
        hidx, row_chars_cons cs p (q :: row')]
      cases hg : get_ascii_char p cs with
      | none => rfl
      | some c =>
        rw [hstep]
        cases hr : row_chars cs (q :: row') with
        | none => rfl
        | some r =>
          cases hrest : ascii_loop cs w (i + 1 + (q :: row').length) rest with
          | none => rfl
          | some out => simp [hnotb]

/-- A successful run of the accumulation loop over `n` full rows of
samples decomposes into `n` rows of palette characters, each of length
`output_width` and each terminated by one newline. -/
lemma ascii_loop_rows (cs : List Char) (w : Nat) (hw : 0 < w) :
    ∀ (n : Nat) (ps : List Nat) (i : Nat) (out : List Char), w ∣ i →
      ps.length = w * n →
      ascii_loop cs w i ps = some out →
      ∃ rows : List (List Char),
        out = (rows.map (fun r => r ++ ['\n'])).flatten ∧
        rows.length = n ∧
        (∀ r ∈ rows, r.length = w) ∧
        (∀ r ∈ rows, ∀ c ∈ r, c ∈ cs) := by
  intro n
  induction n with
  | zero =>
    intro ps i out _ hlen hloop
    have hnil : ps = [] := List.length_eq_zero.mp (by simpa using hlen)
    subst hnil
    simp only [ascii_loop] at hloop
    cases hloop
    exact ⟨[], by simp, rfl, by simp, by simp⟩
  | succ n ih =>
    intro ps i out hdvd hlen hloop
    have hwle : w ≤ ps.length := by
      rw [hlen, Nat.mul_succ]
      exact Nat.le_add_left w (w * n)
    have hsplit : ps.take w ++ ps.drop w = ps := List.take_append_drop w ps
    have hrowlen : (ps.take w).length = w := by
      rw [List.length_take]
      exact Nat.min_eq_left hwle
    have hrestlen : (ps.drop w).length = w * n := by
      rw [List.length_drop, hlen, Nat.mul_succ]
      omega
    obtain ⟨k, rfl⟩ := hdvd
    have hne : ps.take w ≠ [] := by
      intro hcon
      rw [hcon] at hrowlen
      simp at hrowlen
      omega
    have hend : (w * k + (ps.take w).length) % w = 0 := by
      rw [hrowlen, Nat.add_comm, Nat.add_mul_mod_self_left]
      exact Nat.mod_self w
    have hmid : ∀ t, 0 < t → t < (ps.take w).length → (w * k + t) % w ≠ 0 := by
      intro t ht htlt
      rw [hrowlen] at htlt
      rw [Nat.mul_add_mod, Nat.mod_eq_of_lt htlt]
      omega
    rw [← hsplit, ascii_loop_row cs w hw (ps.take w) (ps.drop w) (w * k) hne hend hmid]
      at hloop
    cases hr : row_chars cs (ps.take w) with
    | none => rw [hr] at hloop; cases hloop
    | some r =>
      rw [hr] at hloop
      cases hrest : ascii_loop cs w (w * k + (ps.take w).length) (ps.drop w) with
      | none => rw [hrest] at hloop; cases hloop
      | some out' =>
        rw [hrest] at hloop
        cases hloop
        have hdvd' : w ∣ w * k + (ps.take w).length := by
          rw [hrowlen]
          exact Dvd.dvd.add (Dvd.intro k rfl) (dvd_refl w)
        obtain ⟨rows', hout', hlen', hrow', hmem'⟩ :=
          ih (ps.drop w) (w * k + (ps.take w).length) out' hdvd' hrestlen hrest
        refine ⟨r :: rows', ?_, by simp [hlen'], ?_, ?_⟩
        · subst hout'
          simp
        · intro r' hr'
          rcases List.mem_cons.mp hr' with rfl | hr'
          · rw [row_chars_length hr, hrowlen]
          · exact hrow' r' hr'
        · intro r' hr' c hc
          rcases List.mem_cons.mp hr' with rfl | hr'
          · exact row_chars_mem hr c hc
          · exact hmem' r' hr' c hc

/-- Splitting the concatenation of newline-terminated, newline-free rows
on the newline character recovers the rows, plus the empty trailing
segment coming from the final newline. -/
lemma splitOn_flatten_rows :
    ∀ (rows : List (List Char)), (∀ r ∈ rows, '\n' ∉ r) →
      ((rows.map (fun r => r ++ ['\n'])).flatten).splitOn '\n' = rows ++ [[]] := by
  intro rows
  induction rows with
  | nil => intro _; simp [List.splitOn]
  | cons r rs ih =>
    intro h
    have hr : ∀ x ∈ r, ¬((x == '\n') = true) := by
      intro x hx hcon
      exact (h r (List.mem_cons_self r rs)) (by simpa using (beq_iff_eq.mp hcon ▸ hx))
    have hstep : (r ++ '\n' :: (rs.map (fun r => r ++ ['\n'])).flatten).splitOnP
          (fun x => x == '\n') = r :: ((rs.map (fun r => r ++ ['\n'])).flatten).splitOnP
          (fun x => x == '\n') :=
      List.splitOnP_first _ r hr '\n' (by simp) _
    simp only [List.map_cons, List.flatten_cons, List.append_assoc,
      List.singleton_append, List.splitOn]
    rw [hstep]
    have ihr := ih (fun r hr => h r (List.mem_cons_of_mem _ hr))
    simp only [List.splitOn] at ihr
    rw [ihr]
    rfl

/-- A successful `ascii_loop` run over samples all in `[0, 255]` with a
nonempty palette and positive width always exists (no `IndexError`, no
`ZeroDivisionError`). -/
lemma ascii_loop_total (cs : List Char) (w : Nat) (hw : 0 < w) (hcs : cs ≠ []) :
    ∀ (ps : List Nat), (∀ q ∈ ps, q ≤ 255) → ∀ i,
      ∃ out, ascii_loop cs w i ps = some out := by
  intro ps
  induction ps with
  | nil => intro _ i; exact ⟨[], rfl⟩
  | cons p ps ih =>
    intro hq i
    obtain ⟨c, hc⟩ := get_ascii_char_isSome p cs (hq p (List.mem_cons_self p ps)) hcs
    obtain ⟨out, hout⟩ := ih (fun q hqq => hq q (List.mem_cons_of_mem p hqq)) (i + 1)
    refine ⟨if (i + 1) % w = 0 then c :: '\n' :: out else c :: out, ?_⟩
    rw [ascii_loop_cons cs w i p ps hw.ne', hc, hout]

/-- Every character a successful loop run emits is a newline or a
palette member. -/
lemma ascii_loop_chars (cs : List Char) (w : Nat) :
    ∀ (ps : List Nat) (i : Nat) (out : List Char),
      ascii_loop cs w i ps = some out → ∀ c ∈ out, c = '\n' ∨ c ∈ cs := by
  intro ps
  induction ps with
  | nil =>
    intro i out hloop c hc
    simp only [ascii_loop] at hloop
    cases hloop
    simp at hc
  | cons p ps ih =>
    intro i out hloop c hc
    rw [ascii_loop] at hloop
    by_cases hw0 : w = 0
    · rw [if_pos hw0] at hloop; cases hloop
    · rw [if_neg hw0] at hloop
      cases hg : get_ascii_char p cs with
      | none => rw [hg] at hloop; cases hloop
      | some c0 =>
        rw [hg] at hloop
        cases hrest : ascii_loop cs w (i + 1) ps with
        | none => rw [hrest] at hloop; cases hloop
        | some out' =>
          rw [hrest] at hloop
          cases hloop
          by_cases hb : (i + 1) % w = 0
          · rw [if_pos hb] at hc
            rcases List.mem_cons.mp hc with rfl | hc
            · exact Or.inr (get_ascii_char_mem hg)
            · rcases List.mem_cons.mp hc with rfl | hc
              · exact Or.inl rfl
              · exact ih (i + 1) out' hrest c hc
          · rw [if_neg hb] at hc
            rcases List.mem_cons.mp hc with rfl | hc
            · exact Or.inr (get_ascii_char_mem hg)
            · exact ih (i + 1) out' hrest c hc

/-- Inversion of a successful `image_to_ascii` run: the path existed,
the image opened with a positive width, the requested width and the
computed height are positive, the lazy load succeeded, and the loop
produced exactly the characters of the returned string. -/
lemma image_to_ascii_ok_inv (fs : FileSystem) (p : String) (w : Nat)
    (cs : List Char) (s : String)
    (hok : image_to_ascii fs p w cs = .ok s) :
    ∃ img pixels, fs.openImage p = .ok img ∧ 0 < img.width ∧
      0 < w ∧ 0 < output_height_of w img.width img.height ∧
      img.resizedGray w (output_height_of w img.width img.height) = .ok pixels ∧
      ascii_loop cs w 0 pixels = some s.data := by
  unfold image_to_ascii at hok
  split at hok
  · cases hok
  · split at hok
    · cases hok
    · rename_i img himg
      split at hok
      · cases hok
      · rename_i hw0
        split at hok
        · cases hok
        · rename_i hnz
          push_neg at hnz
          split at hok
          · cases hok
          · rename_i pixels hpix
            split at hok
            · cases hok
            · rename_i chars hloop
              cases hok
              exact ⟨img, pixels, himg, Nat.pos_of_ne_zero hw0,
                Nat.pos_of_ne_zero hnz.1, Nat.pos_of_ne_zero hnz.2, hpix, hloop⟩

/-- A 257-character palette, used to exhibit the behaviour of the index
formula past 256 characters. -/
def big_palette : List Char :=
  List.replicate 256 'x' ++ ['y']

/-! ## Claims -/

/-- C1: for every successful render with a nonempty palette, every
character of the output other than the line break is a member of the
supplied palette, and for every intensity in `[0, 255]` the computed
index `⌊p / 256 * paletteLength⌋` lies in `[0, paletteLength - 1]`. -/
theorem C1_palette_closure (fs : FileSystem) (p : String) (w : Nat)
    (cs : List Char) (s : String) (hcs : cs ≠ [])
    (hok : image_to_ascii fs p w cs = .ok s) :
    (∀ c ∈ s.data, c ≠ '\n' → c ∈ cs) ∧
    (∀ q : Nat, q ≤ 255 → palette_index q cs < cs.length) := by
  obtain ⟨img, pixels, _, _, _, _, _, hloop⟩ := image_to_ascii_ok_inv fs p w cs s hok
  constructor
  · intro c hc hne
    rcases ascii_loop_chars cs w _ 0 s.data hloop c hc with rfl | h
    · exact absurd rfl hne
    · exact h
  · intro q hq
    exact palette_index_lt q cs hq hcs

/-- Witness for C1 at a concrete render. -/
theorem C1_palette_closure_witness :
    (default_char_set ≠ [] ∧
      image_to_ascii mid_fs "img.png" 2 default_char_set = .ok "++\n") ∧
    ((∀ c ∈ ("++\n" : String).data, c ≠ '\n' → c ∈ default_char_set) ∧
      (∀ q : Nat, q ≤ 255 →
        palette_index q default_char_set < default_char_set.length)) :=
  ⟨⟨by decide, by decide⟩,
    C1_palette_closure mid_fs "img.png" 2 default_char_set "++\n" (by decide) (by decide)⟩

/-- C2: every successful render splits on line breaks into exactly
`outputHeight` non-final rows of length exactly `outputWidth`, with a
trailing line break after the final row, so the total length is
`outputHeight * (outputWidth + 1)`.  The hypotheses record the Pillow
guarantee that resampling to the requested grid yields `w * h` samples,
and that the palette contains no line break (the claim's dichotomy
between palette members and line breaks presupposes this). -/
theorem C2_row_shape (fs : FileSystem) (p : String) (w : Nat)
    (cs : List Char) (img : PILImage) (pixels : List Nat) (s : String)
    (hw : 0 < w) (hnl : '\n' ∉ cs)
    (himg : fs.openImage p = .ok img)
    (hpix : img.resizedGray w (output_height_of w img.width img.height) = .ok pixels)
    (hlen : pixels.length = w * output_height_of w img.width img.height)
    (hok : image_to_ascii fs p w cs = .ok s) :
    (s.data.splitOn '\n').length = output_height_of w img.width img.height + 1 ∧
    (∀ r ∈ (s.data.splitOn '\n').dropLast, r.length = w) ∧
    (s.data.splitOn '\n').getLast? = some [] ∧
    s.length = output_height_of w img.width img.height * (w + 1) := by
  obtain ⟨img', pixels', himg', _, _, _, hpix', hloop⟩ :=
    image_to_ascii_ok_inv fs p w cs s hok
  rw [himg] at himg'
  injection himg' with himg'
  subst himg'
  rw [hpix] at hpix'
  injection hpix' with hpix'
  subst hpix'
  obtain ⟨rows, hout, hrowslen, hrowlen, hmem⟩ :=
    ascii_loop_rows cs w hw (output_height_of w img.width img.height) _ 0 s.data
      (dvd_zero w) hlen hloop
  have hnlrows : ∀ r ∈ rows, '\n' ∉ r := by
    intro r hr hcon
    exact hnl (hmem r hr '\n' hcon)
  have hsplit : s.data.splitOn '\n' = rows ++ [[]] := by
    rw [hout]
    exact splitOn_flatten_rows rows hnlrows
  refine ⟨?_, ?_, ?_, ?_⟩
  · rw [hsplit]
    simp [hrowslen]
  · intro r hr
    rw [hsplit, List.dropLast_concat] at hr
    exact hrowlen r hr
  · rw [hsplit]
    exact List.getLast?_concat _
  · have hs : s.length = s.data.length := rfl
    rw [hs, hout, List.length_flatten]
    have hmap : (rows.map (fun r => r ++ ['\n'])).map List.length
        = List.replicate rows.length (w + 1) := by
      rw [List.map_map]
      refine List.eq_replicate_iff.mpr ⟨by simp, ?_⟩
      intro b hb
      simp only [List.mem_map, Function.comp] at hb
      obtain ⟨r, hr, rfl⟩ := hb
      simp [hrowlen r hr]
    rw [hmap, List.sum_replicate, smul_eq_mul, hrowslen]

/-- Witness for C2 at a concrete render (a 2×2 image at width 2, giving
one row of two characters). -/
theorem C2_row_shape_witness :
    (0 < 2 ∧ '\n' ∉ default_char_set ∧
      mid_fs.openImage "img.png" = .ok mid_image ∧
      mid_image.resizedGray 2 (output_height_of 2 mid_image.width mid_image.height)
        = .ok (List.replicate (2 * output_height_of 2 mid_image.width mid_image.height) 128) ∧
      (List.replicate (2 * output_height_of 2 mid_image.width mid_image.height)
          (128 : Nat)).length
        = 2 * output_height_of 2 mid_image.width mid_image.height ∧
      image_to_ascii mid_fs "img.png" 2 default_char_set = .ok "++\n") ∧
    ((("++\n" : String).data.splitOn '\n').length
        = output_height_of 2 mid_image.width mid_image.height + 1 ∧
      (∀ r ∈ (("++\n" : String).data.splitOn '\n').dropLast, r.length = 2) ∧
      (("++\n" : String).data.splitOn '\n').getLast? = some [] ∧
      ("++\n" : String).length
        = output_height_of 2 mid_image.width mid_image.height * (2 + 1)) :=
  ⟨⟨by decide, by decide, rfl, rfl, by simp, by decide⟩,
    C2_row_shape mid_fs "img.png" 2 default_char_set mid_image
      (List.replicate (2 * output_height_of 2 mid_image.width mid_image.height) 128)
      "++\n" (by decide) (by decide) rfl rfl (by simp) (by decide)⟩

/-- C3 (counterexample): two failures at concrete inputs.  First, for
an 80-wide render of a 200×1 source the code computes
`int(80 * (1/200) * 0.55) = 0` and leaves it at 0 — there is no clamp
to 1, so "always at least 1" is false.  Second, the height is not the
exact floor either: for a 56-wide render of a 77×5 source the exact
value `56 * (5/77) * 0.55 = 2` has floor 2, but the double arithmetic
of line 35 lands just below it and the code computes 1. -/
theorem C3_counterexample :
    output_height_of 80 200 1 = 0 ∧
    ¬(1 ≤ output_height_of 80 200 1) ∧
    output_height_of 56 77 5 = 1 ∧
    Nat.floor (((56 : ℕ) : ℚ) * (((5 : ℕ) : ℚ) / ((77 : ℕ) : ℚ)) * (55 / 100)) = 2 := by
  refine ⟨by decide, by decide, by decide, ?_⟩
  have h : ((56 : ℕ) : ℚ) * (((5 : ℕ) : ℚ) / ((77 : ℕ) : ℚ)) * (55 / 100) = 2 := by
    norm_num
  rw [h]
  norm_num

/-- C3 (amended): the computed output height is
`int(outputWidth * (H / W) * 0.55)` evaluated in the implementation's
double-precision arithmetic (which can land one below the exact floor),
and it is never clamped: whenever that double value is below 1 — as for
wide, short sources — the height is 0. -/
theorem C3_height_unclamped (w W H : Nat)
    (hlt : (output_height_val w W H).1 < (output_height_val w W H).2) :
    output_height_of w W H = 0 ∧ ¬(1 ≤ output_height_of w W H) := by
  have h0 : output_height_of w W H = 0 := Nat.div_eq_of_lt hlt
  exact ⟨h0, by omega⟩

/-- Witness for the amended C3 at the 200×1 panorama rendered at width
80: the double value is 0.22…, below 1, and the computed height is 0. -/
theorem C3_height_unclamped_witness :
    (output_height_val 80 200 1).1 < (output_height_val 80 200 1).2 ∧
    (output_height_of 80 200 1 = 0 ∧ ¬(1 ≤ output_height_of 80 200 1)) :=
  ⟨by decide, C3_height_unclamped 80 200 1 (by decide)⟩

/-- C4 (counterexample): two escapes at concrete inputs.  First, with
an existing, decodable 1×2 image, a positive output width and the empty
palette, `char_set[index]` raises `IndexError`, which escapes
`image_to_ascii`.  Second, even with a positive width and the default
nonempty palette, an existing, decodable 200×1 panorama rendered at
width 80 yields computed height 0, and `resize((80, 0))` raises
`ValueError` past the boundary. -/
theorem C4_counterexample :
    image_to_ascii tall_fs "img.png" 1 [] = .exn ∧
    image_to_ascii pano_fs "img.png" 80 default_char_set = .exn := by
  exact ⟨by decide, by decide⟩

/-- C4 (amended): for a positive output width, a nonempty palette, and
inputs on which the decode fully succeeds — a positive-width image, a
positive computed output height, a lazy pixel load that does not raise,
and resampled intensities in `[0, 255]` (as Pillow guarantees) —
`image_to_ascii` never lets an exception escape: it returns a string or
an explicit error value.  Outside those conditions an exception can
escape (see the counterexample). -/
theorem C4_no_uncaught_exception (fs : FileSystem) (p : String) (w : Nat)
    (cs : List Char) (hw : 0 < w) (hcs : cs ≠ [])
    (hdecoded : ∀ img, fs.openImage p = .ok img →
      0 < img.width ∧
      0 < output_height_of w img.width img.height ∧
      ∃ pixels,
        img.resizedGray w (output_height_of w img.width img.height) = .ok pixels ∧
        ∀ q ∈ pixels, q ≤ 255) :
    image_to_ascii fs p w cs ≠ .exn := by
  intro hcon
  unfold image_to_ascii at hcon
  split at hcon
  · cases hcon
  · split at hcon
    · cases hcon
    · rename_i img himg
      obtain ⟨hpos, hh, pixels, hpix, hq⟩ := hdecoded img himg
      split at hcon
      · rename_i h0
        exact absurd h0 hpos.ne'
      · split at hcon
        · rename_i hor
          rcases hor with h | h
          · exact absurd h hw.ne'
          · exact absurd h hh.ne'
        · split at hcon
          · rename_i e heq
            rw [hpix] at heq
            cases heq
          · rename_i pixels' heq
            rw [hpix] at heq
            injection heq with heq
            subst heq
            split at hcon
            · rename_i hnone
              obtain ⟨out, hout⟩ := ascii_loop_total cs w hw hcs pixels hq 0
              rw [hout] at hnone
              cases hnone
            · cases hcon

/-- Witness for the amended C4 at a concrete well-formed input. -/
theorem C4_no_uncaught_exception_witness :
    (0 < 2 ∧ default_char_set ≠ []) ∧
    image_to_ascii mid_fs "img.png" 2 default_char_set ≠ .exn :=
  ⟨⟨by decide, by decide⟩,
    C4_no_uncaught_exception mid_fs "img.png" 2 default_char_set (by decide) (by decide)
      (fun img h => by
        injection h with h
        subst h
        exact ⟨by decide, by decide,
          List.replicate (2 * output_height_of 2 mid_image.width mid_image.height) 128,
          rfl, by decide⟩)⟩

/-- C5 (counterexample): a file whose header is valid but whose pixel
data is corrupt passes `Image.open` (line 27) and fails only at the
lazy load forced by `resize` (line 38), where no handler exists: the
render ends in an uncaught exception, not in a decode-error value — so
"for any reason the decode fails" is false. -/
theorem C5_counterexample :
    lazy_corrupt_fs.pathExists "img.png" = true ∧
    image_to_ascii lazy_corrupt_fs "img.png" 80 default_char_set = .exn :=
  ⟨rfl, by decide⟩

/-- C5 (amended): whenever the path exists and `Image.open` itself
raises — an unidentifiable or unsupported image header, whatever the
message `e` — the render returns the decode-error value carrying `e`;
decode failures that surface only at the lazy pixel load during
`resize` escape as uncaught exceptions instead. -/
theorem C5_decode_error (fs : FileSystem) (p : String) (w : Nat)
    (cs : List Char) (e : String) (hex : fs.pathExists p = true)
    (hdec : fs.openImage p = .error e) :
    image_to_ascii fs p w cs = .err (.decodeError e) := by
  unfold image_to_ascii
  rw [hex]
  simp [hdec]

/-- Witness for the amended C5 on a filesystem whose open always
raises. -/
theorem C5_decode_error_witness :
    (corrupt_fs.pathExists "img.png" = true ∧
      corrupt_fs.openImage "img.png" = .error "cannot identify image file") ∧
    image_to_ascii corrupt_fs "img.png" 80 default_char_set
      = .err (.decodeError "cannot identify image file") :=
  ⟨⟨rfl, rfl⟩,
    C5_decode_error corrupt_fs "img.png" 80 default_char_set
      "cannot identify image file" rfl rfl⟩

/-- C6: for a nonexistent path the render reports not-found — and since
this holds for every filesystem with that existence predicate, in
particular for every possible decoder, no decode attempt can influence
the result. -/
theorem C6_not_found (fs : FileSystem) (p : String) (w : Nat)
    (cs : List Char) (hex : fs.pathExists p = false) :
    image_to_ascii fs p w cs = .err (.notFound p) := by
  unfold image_to_ascii
  rw [hex]
  simp

/-- Witness for C6 on the empty filesystem. -/
theorem C6_not_found_witness :
    empty_fs.pathExists "does_not_exist.png" = false ∧
    image_to_ascii empty_fs "does_not_exist.png" 80 default_char_set
      = .err (.notFound "does_not_exist.png") :=
  ⟨rfl, C6_not_found empty_fs "does_not_exist.png" 80 default_char_set rfl⟩

/-- C7: the intensity-to-index mapping is monotonically non-decreasing:
`p1 < p2` implies the index for `p1` is at most the index for `p2`. -/
theorem C7_bucket_monotone (cs : List Char) (p1 p2 : Nat) (h : p1 < p2) :
    palette_index p1 cs ≤ palette_index p2 cs :=
  Nat.div_le_div_right (Nat.mul_le_mul_right cs.length h.le)

/-- Witness for C7 at the extreme intensities on the default palette. -/
theorem C7_bucket_monotone_witness :
    (0 : Nat) < 255 ∧
    palette_index 0 default_char_set ≤ palette_index 255 default_char_set :=
  ⟨by decide, C7_bucket_monotone default_char_set 0 255 (by decide)⟩

/-- C8 (counterexample): the default output width in the source is 100,
not 80, and rendering with the default differs observably from
rendering at width 80. -/
theorem C8_counterexample :
    default_output_width = 100 ∧
    image_to_ascii_default wide_fs "img.png"
      ≠ image_to_ascii wide_fs "img.png" 80 default_char_set :=
  ⟨rfl, by decide⟩

/-- C8 (amended): when the caller does not specify an output width,
`image_to_ascii` uses its default width of 100 characters (line 12 of
the source; the bundled command-line caller passes 80 explicitly). -/
theorem C8_default_width_100 :
    default_output_width = 100 ∧
    ∀ (fs : FileSystem) (p : String),
      image_to_ascii_default fs p = image_to_ascii fs p 100 default_char_set :=
  ⟨rfl, fun _ _ => rfl⟩

/-- C9: for `outputWidth = 80` and a 200×100 source the computed height
is exactly 22, both as the code's integer computation and as the exact
floor `⌊80 * 0.5 * 0.55⌋`. -/
theorem C9_aspect_scaling :
    output_height_of 80 200 100 = 22 ∧
    Nat.floor (((80 : ℕ) : ℚ) * (((100 : ℕ) : ℚ) / ((200 : ℕ) : ℚ)) * (55 / 100)) = 22 := by
  refine ⟨by decide, ?_⟩
  have h : ((80 : ℕ) : ℚ) * (((100 : ℕ) : ℚ) / ((200 : ℕ) : ℚ)) * (55 / 100) = 22 := by
    norm_num
  rw [h]
  norm_num

set_option maxRecDepth 4000 in
/-- C10 (counterexample): on a 257-character palette, intensity 255
selects index `⌊255 * 257 / 256⌋ = 255`, not the final index 256 — the
claimed "hits the darkest character at intensity 255" fails for
palettes longer than 256. -/
theorem C10_counterexample :
    palette_index 255 big_palette = 255 ∧
    big_palette.length - 1 = 256 ∧
    get_ascii_char 255 big_palette = some 'x' ∧
    big_palette.get? (big_palette.length - 1) = some 'y' ∧
    ('x' : Char) ≠ 'y' := by
  refine ⟨by decide, by decide, by decide, by decide, by decide⟩

/-- C10 (amended): for every nonempty palette of at most 256 characters
intensity 0 selects index 0 (the first, brightest character) and
intensity 255 selects index `paletteLength - 1` (the last, darkest
character). -/
theorem C10_palette_endpoints (cs : List Char) (hcs : cs ≠ [])
    (hle : cs.length ≤ 256) :
    palette_index 0 cs = 0 ∧
    palette_index 255 cs = cs.length - 1 ∧
    get_ascii_char 0 cs = cs.get? 0 ∧
    get_ascii_char 255 cs = cs.get? (cs.length - 1) := by
  have hlen : 0 < cs.length := List.length_pos.mpr hcs
  have h0 : palette_index 0 cs = 0 := by simp [palette_index]
  have h255 : palette_index 255 cs = cs.length - 1 := by
    unfold palette_index
    apply Nat.div_eq_of_lt_le
    · omega
    · omega
  refine ⟨h0, h255, ?_, ?_⟩
  · unfold get_ascii_char
    rw [h0]
  · unfold get_ascii_char
    rw [h255]

/-- Witness for the amended C10 on the ten-character default palette. -/
theorem C10_palette_endpoints_witness :
    (default_char_set ≠ [] ∧ default_char_set.length ≤ 256) ∧
    (palette_index 0 default_char_set = 0 ∧
      palette_index 255 default_char_set = default_char_set.length - 1 ∧
      get_ascii_char 0 default_char_set = default_char_set.get? 0 ∧
      get_ascii_char 255 default_char_set
        = default_char_set.get? (default_char_set.length - 1)) :=
  ⟨⟨by decide, by decide⟩,
    C10_palette_endpoints default_char_set (by decide) (by decide)⟩

end AsciiArt
